import Mathlib

/-!
Verification development for the git-wt repository.

The Go sources of the `config`, `git` and `hooks` packages are embedded
shallowly: pure Go functions become Lean functions, filesystem and process
effects become explicit function parameters (a stat oracle, a file-content
oracle, a command-outcome oracle), Go strings become Lean `String`, Go
slices become Lean `List`, and Go `int` becomes `Int`.
-/

namespace GitWt

/-! ## Configuration data model (internal/config/config.go) -/

/-- Embeds the Go struct `Hooks` (user-configurable hook command lists). -/
structure Hooks where
  postClone : List String
  postAdd : List String
  deriving Repr, DecidableEq

/-- Embeds the Go struct `Config` (the git-wt configuration). -/
structure Config where
  worktreeRoot : String
  defaultRemote : String
  defaultBaseBranch : String
  branchTemplate : String
  gitTimeout : Int
  gitLongTimeout : Int
  hookTimeout : Int
  hooks : Hooks
  deriving Repr, DecidableEq

/-- The Go zero value of `Config` (what `loadRaw` starts from). -/
def zeroConfig : Config :=
  { worktreeRoot := ""
    defaultRemote := ""
    defaultBaseBranch := ""
    branchTemplate := ""
    gitTimeout := 0
    gitLongTimeout := 0
    hookTimeout := 0
    hooks := { postClone := [], postAdd := [] } }

/-- Embeds `DefaultConfig` from internal/config/config.go.  Braces in the
template string are written with hexadecimal escapes. -/
def DefaultConfig : Config :=
  { worktreeRoot := ""
    defaultRemote := "origin"
    defaultBaseBranch := ""
    branchTemplate := "\x7b\x7btype\x7d\x7d-\x7b\x7bnumber\x7d\x7d-\x7b\x7bslug\x7d\x7d"
    gitTimeout := 120
    gitLongTimeout := 600
    hookTimeout := 30
    hooks := { postClone := [], postAdd := [] } }

/-- Embeds `MergeConfig` from internal/config/config.go.  The Go function
copies `base` and then performs one conditional assignment per field; since
each assignment touches a distinct field, the sequence of assignments is
rendered as a single record literal with one conditional per field. -/
def MergeConfig (base override : Config) : Config :=
  { worktreeRoot :=
      if override.worktreeRoot ≠ "" then override.worktreeRoot else base.worktreeRoot
    defaultRemote :=
      if override.defaultRemote ≠ "" then override.defaultRemote else base.defaultRemote
    defaultBaseBranch :=
      if override.defaultBaseBranch ≠ "" then override.defaultBaseBranch
      else base.defaultBaseBranch
    branchTemplate :=
      if override.branchTemplate ≠ "" then override.branchTemplate else base.branchTemplate
    gitTimeout :=
      if override.gitTimeout ≠ 0 then override.gitTimeout else base.gitTimeout
    gitLongTimeout :=
      if override.gitLongTimeout ≠ 0 then override.gitLongTimeout else base.gitLongTimeout
    hookTimeout :=
      if override.hookTimeout ≠ 0 then override.hookTimeout else base.hookTimeout
    hooks :=
      { postClone :=
          if override.hooks.postClone.length > 0 then override.hooks.postClone
          else base.hooks.postClone
        postAdd :=
          if override.hooks.postAdd.length > 0 then override.hooks.postAdd
          else base.hooks.postAdd } }

/-! ## Heap model for the pointer semantics of `MergeConfig`

Go passes `*Config` pointers.  `MergeConfig` dereferences its two arguments,
copies `base` into a fresh local (`merged := *base`), conditionally assigns
fields of that local only, and returns the address of the local.  The heap is
modelled as a list of `Config` cells addressed by index; the returned pointer
is the index of the freshly appended cell. -/

/-- A heap of `Config` cells; a Go `*Config` is an index into `cells`. -/
structure Heap where
  cells : List Config

/-- Embeds the call `MergeConfig(base, override)` at the heap level: read the
two argument cells, build the merged value exactly as `MergeConfig` does, and
allocate it in a fresh cell whose index is returned. -/
def mergeConfigOnHeap (h : Heap) (base override : Nat) : Heap × Nat :=
  let b := h.cells.getD base zeroConfig
  let o := h.cells.getD override zeroConfig
  let merged := MergeConfig b o
  ({ cells := h.cells ++ [merged] }, h.cells.length)

/-! ## Effective configuration with provenance (internal/config/config.go) -/

/-- Outcome of `os.ReadFile` followed by `toml.Unmarshal` for one config
file: the file is absent (or unreadable), parses to a config, or is
malformed TOML. -/
inductive ReadResult where
  | missing : ReadResult
  | content : Config → ReadResult
  | malformed : ReadResult

/-- Embeds `GetRepoConfigPath`: `filepath.Join(projectRoot, ".git-wt.toml")`,
with `Join` modelled as concatenation with a single separator. -/
def GetRepoConfigPath (projectRoot : String) : String :=
  projectRoot ++ "/" ++ ".git-wt.toml"

/-- The field names `LoadEffective` initialises to the source `"default"`. -/
def fieldNames : List String :=
  ["worktree_root", "default_remote", "default_base_branch",
   "branch_template", "git_timeout", "git_long_timeout", "hook_timeout"]

/-- A Go `map[string]string` write `m[k] = v`, on the functional model of the
source map (a missing key reads as the zero value `""`). -/
def setSrc (m : String → String) (k v : String) : String → String :=
  fun x => if x = k then v else m x

/-- Embeds one layer block of `LoadEffective`: the global-file block and the
repo-file block of the Go function are textually identical up to the config
value and path involved, so they are rendered once, parameterised by both.
Each Go `if` conditionally assigns one config field and records `path` as
that field's source; the two hook lists are taken when non-empty but get no
source entry. -/
def applyLayer (cfg : Config) (sources : String → String) (layer : Config)
    (path : String) : Config × (String → String) :=
  let p1 := if layer.worktreeRoot ≠ "" then
      ({ cfg with worktreeRoot := layer.worktreeRoot },
       setSrc sources "worktree_root" path)
    else (cfg, sources)
  let p2 := if layer.defaultRemote ≠ "" then
      ({ p1.1 with defaultRemote := layer.defaultRemote },
       setSrc p1.2 "default_remote" path)
    else p1
  let p3 := if layer.defaultBaseBranch ≠ "" then
      ({ p2.1 with defaultBaseBranch := layer.defaultBaseBranch },
       setSrc p2.2 "default_base_branch" path)
    else p2
  let p4 := if layer.branchTemplate ≠ "" then
      ({ p3.1 with branchTemplate := layer.branchTemplate },
       setSrc p3.2 "branch_template" path)
    else p3
  let p5 := if layer.gitTimeout ≠ 0 then
      ({ p4.1 with gitTimeout := layer.gitTimeout },
       setSrc p4.2 "git_timeout" path)
    else p4
  let p6 := if layer.gitLongTimeout ≠ 0 then
      ({ p5.1 with gitLongTimeout := layer.gitLongTimeout },
       setSrc p5.2 "git_long_timeout" path)
    else p5
  let p7 := if layer.hookTimeout ≠ 0 then
      ({ p6.1 with hookTimeout := layer.hookTimeout },
       setSrc p6.2 "hook_timeout" path)
    else p6
  let c8 := if layer.hooks.postClone.length > 0 then
      { p7.1 with hooks := { p7.1.hooks with postClone := layer.hooks.postClone } }
    else p7.1
  let c9 := if layer.hooks.postAdd.length > 0 then
      { c8 with hooks := { c8.hooks with postAdd := layer.hooks.postAdd } }
    else c8
  (c9, p7.2)

/-- Embeds `LoadEffective` from internal/config/config.go.  File contents are
supplied by the oracle `readFile`; a missing/unreadable file skips its layer
silently, a malformed file aborts with an `invalid config` error.  The
source map starts with every recognised field mapped to `"default"`. -/
def LoadEffective (globalPath projectRoot : String)
    (readFile : String → ReadResult) :
    Except String (Config × (String → String)) :=
  let sources : String → String := fun f => if f ∈ fieldNames then "default" else ""
  let cfg := DefaultConfig
  let afterGlobal : Except String (Config × (String → String)) :=
    match readFile globalPath with
    | ReadResult.malformed => Except.error ("invalid config " ++ globalPath)
    | ReadResult.missing => Except.ok (cfg, sources)
    | ReadResult.content g => Except.ok (applyLayer cfg sources g globalPath)
  match afterGlobal with
  | Except.error e => Except.error e
  | Except.ok (cfg, sources) =>
    if projectRoot ≠ "" then
      let repoPath := GetRepoConfigPath projectRoot
      match readFile repoPath with
      | ReadResult.malformed => Except.error ("invalid config " ++ repoPath)
      | ReadResult.missing => Except.ok (cfg, sources)
      | ReadResult.content r => Except.ok (applyLayer cfg sources r repoPath)
    else Except.ok (cfg, sources)

/-! ## Branch-name validation and flattening (internal/git/validate.go) -/

/-- Model of Go `strings.Contains` on character lists: `pat` occurs as a
contiguous substring of `s` (the empty pattern always occurs). -/
def containsSeq : List Char → List Char → Bool
  | s, pat =>
    pat.isPrefixOf s ||
      match s with
      | [] => false
      | _ :: t => containsSeq t pat

/-- Go `strings.Contains(s, pat)`. -/
def strContains (s pat : String) : Bool :=
  containsSeq s.data pat.data

/-- Go `strings.HasPrefix(s, pre)`. -/
def strHasPrefix (s pre : String) : Bool :=
  pre.data.isPrefixOf s.data

/-- Go `strings.HasSuffix(s, suf)`. -/
def strHasSuffix (s suf : String) : Bool :=
  suf.data.isSuffixOf s.data

/-- The `invalidPatterns` slice of `ValidateBranchName`; `@` followed by an
open brace is written with a hexadecimal escape. -/
def invalidPatterns : List String :=
  ["..", "~", "^", ":", "\\", " ", "?", "*", "[", "@\x7b", ".lock"]

/-- Embeds `ValidateBranchName` from internal/git/validate.go; `some msg`
models a non-nil Go error.  The Go loop over `invalidPatterns` returns at
the first pattern contained in the name, which is `List.find?`. -/
def ValidateBranchName (name : String) : Option String :=
  if name = "" then some "branch name cannot be empty"
  else
    match invalidPatterns.find? (fun pat => strContains name pat) with
    | some pat =>
        some ("branch name contains invalid pattern " ++ pat ++ ": " ++ name)
    | none =>
      if strHasPrefix name "." || strHasSuffix name "." then
        some ("branch name cannot start or end with a dot: " ++ name)
      else if strHasPrefix name "/" || strHasSuffix name "/" then
        some ("branch name cannot start or end with a slash: " ++ name)
      else if strContains name "//" then
        some ("branch name cannot contain consecutive slashes: " ++ name)
      else none

/-! ## Bare-repo detection and project-root discovery (internal/git/bare.go)

An absolute directory path is modelled as its list of components stored
innermost-first (so `/home/u/proj` is `["proj", "u", "home"]` and the
filesystem root is `[]`); with this representation `filepath.Dir` is `tail`
(and the root is its own parent, as in Go).  The filesystem is an `os.Stat`
oracle: `none` models a stat error, `some isDir` models success together
with `info.IsDir()`. -/

/-- A stat oracle: path components (innermost-first) to stat outcome. -/
def StatFS : Type := List String → Option Bool

/-- Embeds `IsBareRepo` from internal/git/bare.go: the `.bare` entry must
stat as a directory and the `.git` entry must stat as a non-directory; any
stat failure yields `false`. -/
def IsBareRepo (fs : StatFS) (dir : List String) : Bool :=
  match fs (".bare" :: dir) with
  | some true =>
    match fs (".git" :: dir) with
    | some isDir => !isDir
    | none => false
  | _ => false

/-- The upward walk of `GetProjectRoot`: test the current directory, then
its parent, stopping at the filesystem root (whose parent is itself). -/
def walkRoot (fs : StatFS) : List String → Option (List String)
  | [] => if IsBareRepo fs [] then some [] else none
  | c :: rest =>
    if IsBareRepo fs (c :: rest) then some (c :: rest) else walkRoot fs rest

/-- Embeds `GetProjectRoot` from internal/git/bare.go; the input path is
taken already in absolute component form (`filepath.Abs` is the identity on
the model's canonical absolute paths). -/
def GetProjectRoot (fs : StatFS) (worktreePath : List String) :
    Except String (List String) :=
  match walkRoot fs worktreePath with
  | some dir => Except.ok dir
  | none => Except.error "not in a git-wt project"

/-- The chain of directories the walk visits: the start path, then each
parent up to and including the filesystem root. -/
def ancChain : List String → List (List String)
  | [] => [[]]
  | c :: rest => (c :: rest) :: ancChain rest

/-! ## Go string helpers shared by the worktree code

`strings.TrimSpace` and `strings.Split(s, "\n")` are modelled on character
lists (whitespace restricted to the ASCII space class). -/

/-- The ASCII part of Go `unicode.IsSpace`. -/
def isGoSpace (c : Char) : Bool :=
  c = ' ' || c = '\t' || c = '\n' || c = '\x0b' || c = '\x0c' || c = '\r'

/-- Go `strings.TrimSpace` on a character list: drop leading and trailing
whitespace. -/
def trimChars (s : List Char) : List Char :=
  ((s.dropWhile isGoSpace).reverse.dropWhile isGoSpace).reverse

/-- Go `strings.TrimSpace`. -/
def goTrim (s : String) : String :=
  ⟨trimChars s.data⟩

/-- Go `strings.Split(s, "\n")` on a character list: the newline-separated
chunks, never empty (splitting the empty string gives one empty chunk). -/
def splitNL : List Char → List (List Char)
  | [] => [[]]
  | c :: t =>
    match splitNL t with
    | [] => [[]]
    | b :: bs => if c = '\n' then [] :: b :: bs else (c :: b) :: bs

/-- Go `strings.Split(s, "\n")`. -/
def goSplitLines (s : String) : List String :=
  (splitNL s.data).map (fun l => ⟨l⟩)

/-! ## Worktree status (internal/git/worktree.go) -/

/-- Embeds `GetWorktreeStatus` from internal/git/worktree.go.  The underlying
`git status --porcelain` invocation is the oracle argument: `Except.error`
models a failing `RunInDir`, `Except.ok` carries its trimmed-or-raw output
text.  The pair's second component is the Go error return, which is `nil` on
every path. -/
def GetWorktreeStatus (statusResult : Except String String) : String × Option String :=
  match statusResult with
  | Except.error _ => ("unknown", none)
  | Except.ok output =>
    let lines := goSplitLines (goTrim output)
    if output = "" ∨ lines.length = 0 ∨ (lines.length = 1 ∧ lines.getD 0 "" = "") then
      ("clean", none)
    else
      (toString lines.length ++ " modified", none)

/-- A single character replaced throughout a character list. -/
def replaceChar (c d : Char) (s : List Char) : List Char :=
  s.map (fun x => if x = c then d else x)

/-- Embeds `FlattenBranchName` from internal/git/validate.go:
`strings.ReplaceAll(branch, "/", "-")`; for a one-character pattern and
replacement, `ReplaceAll` is the character-wise map. -/
def FlattenBranchName (branch : String) : String :=
  ⟨replaceChar '/' '-' branch.data⟩

/-! ## Porcelain worktree-list parsing (internal/git/worktree.go) -/

/-- Embeds the Go struct `Worktree`; the Go zero value of each field is the
empty string, and an absent commit is the empty string. -/
structure Worktree where
  path : String
  branch : String
  commit : String
  deriving Repr, DecidableEq

/-- The `Worktree{}` zero value the parser starts each record from. -/
def emptyWorktree : Worktree :=
  { path := "", branch := "", commit := "" }

/-- Go `strings.TrimPrefix(s, pre)`: drop `pre` when it is a prefix, else
return `s` unchanged. -/
def trimPrefix (s pre : String) : String :=
  if strHasPrefix s pre then ⟨s.data.drop pre.data.length⟩ else s

/-- The per-line body of the `parseWorktreeList` loop, applied to an already
trimmed non-blank line: a `worktree ` line sets the path, a `HEAD ` line
sets the commit, a `branch ` line sets the branch with the `refs/heads/`
namespace prefix stripped, anything else is ignored. -/
def wtStep (w : Worktree) (line : String) : Worktree :=
  if strHasPrefix line "worktree " then
    { w with path := trimPrefix line "worktree " }
  else if strHasPrefix line "HEAD " then
    { w with commit := trimPrefix line "HEAD " }
  else if strHasPrefix line "branch " then
    { w with branch := trimPrefix (trimPrefix line "branch ") "refs/heads/" }
  else w

/-- The `parseWorktreeList` loop over the split lines, carrying the current
record: a blank (whitespace-only) line emits the current record when it has
a path and resets it, any other line is trimmed and folded in; the final
record is emitted when it has a path. -/
def parseLoop (w : Worktree) : List String → List Worktree
  | [] => if w.path ≠ "" then [w] else []
  | l :: ls =>
    let t := goTrim l
    if t = "" then
      if w.path ≠ "" then w :: parseLoop emptyWorktree ls
      else parseLoop w ls
    else
      parseLoop (wtStep w t) ls

/-- Embeds `parseWorktreeList` from internal/git/worktree.go. -/
def parseWorktreeList (output : String) : List Worktree :=
  parseLoop emptyWorktree (goSplitLines output)

/-- The blank-line-delimited blocks of a line list: first block and the
following blocks (the block list is conceptually never empty, hence the
pair). -/
def splitBlocks : List String → List String × List (List String)
  | [] => ([], [])
  | l :: ls =>
    let (b, bs) := splitBlocks ls
    if goTrim l = "" then ([], b :: bs) else (l :: b, bs)

/-- All blank-line-delimited blocks of a porcelain listing, in input order. -/
def blocksOf (output : String) : List (List String) :=
  (splitBlocks (goSplitLines output)).1 :: (splitBlocks (goSplitLines output)).2

/-- The path a single line contributes, given the path `p` accumulated so
far within the block. -/
def pathStep (p : String) (l : String) : String :=
  let t := goTrim l
  if strHasPrefix t "worktree " then trimPrefix t "worktree " else p

/-- The path accumulated over a whole block, starting from `p`. -/
def foldPath (p : String) (b : List String) : String :=
  b.foldl pathStep p

/-- The record path a block contributes: `none` when the block lacks a path
line (the record is discarded), `some` of the last path-line value
otherwise. -/
def blockPath (b : List String) : Option String :=
  let q := foldPath "" b
  if q = "" then none else some q

/-- Emit a record path when it is non-empty (the loop's emission guard). -/
def emitIf (p : String) : List String :=
  if p = "" then [] else [p]

/-- The path projection of the records a line list yields when the current
block's accumulated path is `p`: the first block emits its final path when
non-empty, the later blocks each contribute through `blockPath`. -/
def specPaths (p : String) (b : List String) (bs : List (List String)) :
    List String :=
  emitIf (foldPath p b) ++ bs.filterMap blockPath

/-! ## Hook runner (internal/hooks/hooks.go) -/

/-- Embeds the Go struct `Context` of the hooks package. -/
structure HookContext where
  path : String
  branch : String
  projectRoot : String
  defaultBranch : String
  deriving Repr, DecidableEq

/-- The quote-escaping step of `shellQuote`: each single quote becomes the
four characters quote, backslash, quote, quote
(`strings.ReplaceAll(s, "'", "'\\''")` — close, escaped quote, reopen). -/
def escapeQuotes : List Char → List Char
  | [] => []
  | c :: t =>
    if c = '\'' then '\'' :: '\\' :: '\'' :: '\'' :: escapeQuotes t
    else c :: escapeQuotes t

/-- Embeds `shellQuote` from internal/hooks/hooks.go: wrap in single quotes
with embedded single quotes escaped. -/
def shellQuote (s : String) : String :=
  ⟨'\'' :: (escapeQuotes s.data ++ ['\''])⟩

/-- The scan of Go `strings.ReplaceAll(s, pat, rep)` for a non-empty
pattern: left to right, replacing each non-overlapping occurrence.  `skip`
counts characters of an already-matched occurrence still to be consumed, so
that after emitting the replacement the scan resumes past the occurrence. -/
def replaceGo (pat rep : List Char) : Nat → List Char → List Char
  | _, [] => []
  | Nat.succ k, _ :: s => replaceGo pat rep k s
  | 0, a :: s =>
    if pat.isPrefixOf (a :: s) then
      rep ++ replaceGo pat rep (pat.length - 1) s
    else
      a :: replaceGo pat rep 0 s

/-- Go `strings.ReplaceAll(s, pat, rep)` for a non-empty pattern. -/
def replaceList (pat rep s : List Char) : List Char :=
  replaceGo pat rep 0 s

/-- Go `strings.ReplaceAll` on strings. -/
def strReplaceAll (s pat rep : String) : String :=
  ⟨replaceList pat.data rep.data s.data⟩

/-- The four placeholder patterns of `expandTemplates` (braces written with
hexadecimal escapes) paired with the context value each one takes. -/
def placeholderPairs (ctx : HookContext) : List (String × String) :=
  [("\x7b\x7b.Path\x7d\x7d", ctx.path),
   ("\x7b\x7b.Branch\x7d\x7d", ctx.branch),
   ("\x7b\x7b.ProjectRoot\x7d\x7d", ctx.projectRoot),
   ("\x7b\x7b.DefaultBranch\x7d\x7d", ctx.defaultBranch)]

/-- Embeds `expandTemplates` from internal/hooks/hooks.go: each placeholder
is replaced by the shell-quoted context value.  The Go loop ranges over a
map whose iteration order is unspecified; the replacements are applied here
in the order of the map literal (the placeholders are pairwise
non-overlapping, so the order is irrelevant for placeholder-free values). -/
def expandTemplates (s : String) (ctx : HookContext) : String :=
  (placeholderPairs ctx).foldl
    (fun acc pv => strReplaceAll acc pv.1 (shellQuote pv.2)) s

/-- The outcome of one `sh -c` hook invocation under its deadline: success,
non-zero exit with the Go error text, or the context deadline firing. -/
inductive ExecOutcome where
  | success : ExecOutcome
  | exitErr : String → ExecOutcome
  | timedOut : ExecOutcome
  deriving Repr, DecidableEq

/-- The warning one command contributes, exactly as `RunWithTimeout` formats
it: nothing on success, `cmd: <error text>` on a non-zero exit, and
`cmd: context deadline exceeded` (the rendering of the deadline error of the
cancelled execution context) on a timeout. -/
def warnOf (cmd : String) : ExecOutcome → Option String
  | ExecOutcome.success => none
  | ExecOutcome.exitErr msg => some (cmd ++ ": " ++ msg)
  | ExecOutcome.timedOut => some (cmd ++ ": " ++ "context deadline exceeded")

/-- Result of a hook run: the shell invocations issued, in order, and the
collected warnings.  The Go function returns only the warnings; the
`executed` trace makes the sequence of spawned subprocesses explicit. -/
structure HookRun where
  executed : List String
  warnings : List String
  deriving Repr, DecidableEq

/-- Embeds `RunWithTimeout` from internal/hooks/hooks.go with the subprocess
(including its deadline) abstracted into the outcome oracle `exec`: each
command is template-expanded, executed, and contributes at most one
warning; the loop never stops early. -/
def RunWithTimeout (commands : List String) (ctx : HookContext)
    (exec : String → ExecOutcome) : HookRun :=
  match commands with
  | [] => { executed := [], warnings := [] }
  | cmd :: rest =>
    let c := expandTemplates cmd ctx
    let tail := RunWithTimeout rest ctx exec
    { executed := c :: tail.executed
      warnings :=
        (match warnOf c (exec c) with
         | none => []
         | some w => [w]) ++ tail.warnings }

/-! ## A single-word POSIX shell reader, used to state quoting safety

`parseShellWord` reads one shell word under POSIX quoting rules (single
quotes make every character literal until the closing quote; outside quotes
a backslash escapes the next character), returning the literal text the
shell would see.  Safety of `shellQuote` is that reading back a quoted
value yields exactly the original value, so no embedded quote can close the
quoting and smuggle in shell syntax. -/

/-- Reads characters inside (`inQuote = true`) or outside a single-quoted
region (`escaped = true` right after an unquoted backslash), accumulating
the literal word; fails on an unterminated quote or a trailing backslash. -/
def parseShellWord (inQuote escaped : Bool) : List Char → Option (List Char)
  | [] => if inQuote || escaped then none else some []
  | c :: rest =>
    if escaped then (parseShellWord false false rest).map (fun w => c :: w)
    else if inQuote then
      if c = '\'' then parseShellWord false false rest
      else (parseShellWord true false rest).map (fun w => c :: w)
    else
      if c = '\'' then parseShellWord true false rest
      else if c = '\\' then parseShellWord false true rest
      else (parseShellWord false false rest).map (fun w => c :: w)

end GitWt

/-! ## Helper lemmas -/

/-- A character-list literal string is empty iff the list is. -/
theorem GitWt.mk_eq_empty_iff (l : List Char) : (⟨l⟩ : String) = "" ↔ l = [] := by
  constructor
  · intro h
    exact congrArg String.data h
  · intro h
    rw [h]

/-- Splitting on newlines never produces an empty chunk list. -/
theorem GitWt.splitNL_ne_nil (l : List Char) : GitWt.splitNL l ≠ [] := by
  induction l with
  | nil => simp [GitWt.splitNL]
  | cons c t ih =>
    simp only [GitWt.splitNL]
    cases h : GitWt.splitNL t with
    | nil => simp
    | cons b bs => by_cases hc : c = '\n' <;> simp [hc]

/-- Splitting on newlines yields the single empty chunk exactly for the
empty input. -/
theorem GitWt.splitNL_eq_single_iff (l : List Char) :
    GitWt.splitNL l = [[]] ↔ l = [] := by
  induction l with
  | nil => simp [GitWt.splitNL]
  | cons c t ih =>
    simp only [GitWt.splitNL]
    cases h : GitWt.splitNL t with
    | nil => exact absurd h (GitWt.splitNL_ne_nil t)
    | cons b bs => by_cases hc : c = '\n' <;> simp [hc]

/-- C2: for every pair of configs, `MergeConfig` takes the override value of a
field exactly when that value is a non-empty string, a non-zero integer or a
non-empty list, and keeps the base value otherwise; merging an all-zero
override is the identity on the base config. -/
theorem C2_merge_override_wins_iff_nonzero :
    (∀ base override : GitWt.Config,
      (GitWt.MergeConfig base override).worktreeRoot =
        (if override.worktreeRoot ≠ "" then override.worktreeRoot else base.worktreeRoot) ∧
      (GitWt.MergeConfig base override).defaultRemote =
        (if override.defaultRemote ≠ "" then override.defaultRemote else base.defaultRemote) ∧
      (GitWt.MergeConfig base override).defaultBaseBranch =
        (if override.defaultBaseBranch ≠ "" then override.defaultBaseBranch
         else base.defaultBaseBranch) ∧
      (GitWt.MergeConfig base override).branchTemplate =
        (if override.branchTemplate ≠ "" then override.branchTemplate
         else base.branchTemplate) ∧
      (GitWt.MergeConfig base override).gitTimeout =
        (if override.gitTimeout ≠ 0 then override.gitTimeout else base.gitTimeout) ∧
      (GitWt.MergeConfig base override).gitLongTimeout =
        (if override.gitLongTimeout ≠ 0 then override.gitLongTimeout
         else base.gitLongTimeout) ∧
      (GitWt.MergeConfig base override).hookTimeout =
        (if override.hookTimeout ≠ 0 then override.hookTimeout else base.hookTimeout) ∧
      (GitWt.MergeConfig base override).hooks.postClone =
        (if override.hooks.postClone.length > 0 then override.hooks.postClone
         else base.hooks.postClone) ∧
      (GitWt.MergeConfig base override).hooks.postAdd =
        (if override.hooks.postAdd.length > 0 then override.hooks.postAdd
         else base.hooks.postAdd)) ∧
    (∀ base : GitWt.Config, GitWt.MergeConfig base GitWt.zeroConfig = base) := by
  constructor
  · intro base override
    refine ⟨rfl, rfl, rfl, rfl, rfl, rfl, rfl, rfl, rfl⟩
  · intro base
    rfl

/-- C1: with a global file setting only `git_timeout = 180` and a repository
file setting only `default_remote = "upstream"`, `LoadEffective` resolves
with precedence defaults < global < repo per field: the effective config has
`git_timeout = 180`, `default_remote = "upstream"`, `hook_timeout = 30`, and
the source map sends `git_timeout` to the global path, `default_remote` to
the repo path and `hook_timeout` to `"default"`. -/
theorem C1_load_effective_precedence
    (globalPath projectRoot : String) (readFile : String → GitWt.ReadResult)
    (hroot : projectRoot ≠ "")
    (hglobal : readFile globalPath =
      GitWt.ReadResult.content { GitWt.zeroConfig with gitTimeout := 180 })
    (hrepo : readFile (GitWt.GetRepoConfigPath projectRoot) =
      GitWt.ReadResult.content { GitWt.zeroConfig with defaultRemote := "upstream" }) :
    (GitWt.LoadEffective globalPath projectRoot readFile).toOption.map
        (fun r => (r.1.gitTimeout, r.1.defaultRemote, r.1.hookTimeout,
                   r.2 "git_timeout", r.2 "default_remote", r.2 "hook_timeout")) =
      some (180, "upstream", 30, globalPath,
            GitWt.GetRepoConfigPath projectRoot, "default") := by
  simp only [GitWt.LoadEffective, hglobal, hrepo, if_pos hroot]
  simp [GitWt.applyLayer, GitWt.zeroConfig, GitWt.DefaultConfig,
    GitWt.fieldNames]
  refine ⟨_, _, rfl, rfl, rfl, rfl, ?_, ?_, ?_⟩ <;> simp [GitWt.setSrc]

/-- Witness for C1 at a concrete global path, project root and file oracle. -/
theorem C1_load_effective_precedence_witness :
    (GitWt.LoadEffective "/g.toml" "/p"
        (fun s => if s = "/g.toml" then
            GitWt.ReadResult.content { GitWt.zeroConfig with gitTimeout := 180 }
          else if s = "/p/.git-wt.toml" then
            GitWt.ReadResult.content { GitWt.zeroConfig with defaultRemote := "upstream" }
          else GitWt.ReadResult.missing)).toOption.map
        (fun r => (r.1.gitTimeout, r.1.defaultRemote, r.1.hookTimeout,
                   r.2 "git_timeout", r.2 "default_remote", r.2 "hook_timeout")) =
      some (180, "upstream", 30, "/g.toml",
            GitWt.GetRepoConfigPath "/p", "default") :=
  C1_load_effective_precedence "/g.toml" "/p" _ (by decide) (by rfl) (by rfl)

/-- C10: at the heap level, `MergeConfig` allocates a fresh cell for its
result and leaves every existing cell — in particular both argument
configs, hook lists included — unchanged. -/
theorem C10_merge_config_frame (h : GitWt.Heap) (b o : Nat) :
    (∀ i, i < h.cells.length →
      ((GitWt.mergeConfigOnHeap h b o).1.cells[i]? = h.cells[i]?)) ∧
    (GitWt.mergeConfigOnHeap h b o).2 = h.cells.length ∧
    (GitWt.mergeConfigOnHeap h b o).1.cells[(GitWt.mergeConfigOnHeap h b o).2]? =
      some (GitWt.MergeConfig (h.cells.getD b GitWt.zeroConfig)
        (h.cells.getD o GitWt.zeroConfig)) := by
  refine ⟨fun i hi => ?_, rfl, ?_⟩
  · simp [GitWt.mergeConfigOnHeap, List.getElem?_append, hi]
  · simp [GitWt.mergeConfigOnHeap, List.getElem?_append]

/-- Witness for C10 on a concrete two-cell heap. -/
theorem C10_merge_config_frame_witness :
    (GitWt.mergeConfigOnHeap ⟨[GitWt.zeroConfig, GitWt.DefaultConfig]⟩ 0 1).1.cells[0]? =
      (GitWt.Heap.mk [GitWt.zeroConfig, GitWt.DefaultConfig]).cells[0]? :=
  (C10_merge_config_frame ⟨[GitWt.zeroConfig, GitWt.DefaultConfig]⟩ 0 1).1 0 (by decide)

/-- C9: `FlattenBranchName` replaces every slash by a dash: its result never
contains a slash, it is idempotent, and it maps `feature/auth` to
`feature-auth` and `a/b/c` to `a-b-c`; as a Lean function it is total and
pure by construction. -/
theorem C9_flatten_branch_name :
    (∀ b : String, '/' ∉ (GitWt.FlattenBranchName b).data) ∧
    (∀ b : String,
      GitWt.FlattenBranchName (GitWt.FlattenBranchName b) = GitWt.FlattenBranchName b) ∧
    GitWt.FlattenBranchName "feature/auth" = "feature-auth" ∧
    GitWt.FlattenBranchName "a/b/c" = "a-b-c" := by
  refine ⟨?_, ?_, by decide, by decide⟩
  · intro b hmem
    simp only [GitWt.FlattenBranchName, GitWt.replaceChar, List.mem_map] at hmem
    obtain ⟨x, -, hx⟩ := hmem
    by_cases h : x = '/' <;> simp [h] at hx
  · intro b
    simp only [GitWt.FlattenBranchName, GitWt.replaceChar, List.map_map]
    congr 1
    apply List.map_congr_left
    intro a _
    by_cases h : a = '/' <;> simp [h]

/-- C3: project-root discovery walks parents upward from the absolute start
path, returns the first (nearest) directory of the ancestor chain satisfying
the bare-layout invariant, and fails with the not-in-a-managed-project error
exactly when no directory of the chain — filesystem root included —
satisfies it; the bare-layout detector is a pure two-stat check that never
errors, with a stat failure on either entry counting as not-bare, and a
nested start path several levels under a valid root resolves to that root. -/
theorem C3_project_root_discovery :
    (∀ (fs : GitWt.StatFS) (p : List String),
      GitWt.walkRoot fs p =
        (GitWt.ancChain p).find? (fun d => GitWt.IsBareRepo fs d)) ∧
    (∀ (fs : GitWt.StatFS) (p : List String),
      GitWt.GetProjectRoot fs p = Except.error "not in a git-wt project" ↔
        ∀ d ∈ GitWt.ancChain p, GitWt.IsBareRepo fs d = false) ∧
    (∀ (fs : GitWt.StatFS) (dir : List String),
      fs (".bare" :: dir) = none → GitWt.IsBareRepo fs dir = false) ∧
    (∀ (fs : GitWt.StatFS) (dir : List String),
      fs (".git" :: dir) = none → GitWt.IsBareRepo fs dir = false) ∧
    (∀ (fs fs' : GitWt.StatFS) (dir : List String),
      fs (".bare" :: dir) = fs' (".bare" :: dir) →
      fs (".git" :: dir) = fs' (".git" :: dir) →
      GitWt.IsBareRepo fs dir = GitWt.IsBareRepo fs' dir) ∧
    GitWt.GetProjectRoot
      (fun p => if p = [".bare", "proj", "u", "home"] then some true
        else if p = [".git", "proj", "u", "home"] then some false else none)
      ["sub", "wt", "proj", "u", "home"] = Except.ok ["proj", "u", "home"] ∧
    GitWt.GetProjectRoot
      (fun p => if p = [".bare", "proj", "u", "home"] then some true
        else if p = [".git", "proj", "u", "home"] then some false else none)
      ["elsewhere"] = Except.error "not in a git-wt project" := by
  have hwalk : ∀ (fs : GitWt.StatFS) (p : List String),
      GitWt.walkRoot fs p =
        (GitWt.ancChain p).find? (fun d => GitWt.IsBareRepo fs d) := by
    intro fs p
    induction p with
    | nil =>
      by_cases hb : GitWt.IsBareRepo fs [] <;>
        simp [GitWt.walkRoot, GitWt.ancChain, hb]
    | cons c rest ih =>
      by_cases hb : GitWt.IsBareRepo fs (c :: rest) <;>
        simp [GitWt.walkRoot, GitWt.ancChain, hb, ih]
  refine ⟨hwalk, ?_, ?_, ?_, ?_, by rfl, by rfl⟩
  · intro fs p
    simp only [GitWt.GetProjectRoot, hwalk]
    rcases hf : (GitWt.ancChain p).find? (fun d => GitWt.IsBareRepo fs d) with _ | d
    · rw [List.find?_eq_none] at hf
      simp only [reduceCtorEq]
      constructor
      · intro _ d hd
        simpa using hf d hd
      · intro _
        trivial
    · have hmem := List.mem_of_find?_eq_some hf
      have hpos : GitWt.IsBareRepo fs d = true := by
        simpa using List.find?_some hf
      simp only [reduceCtorEq, false_iff, not_forall]
      exact ⟨d, hmem, by simp [hpos]⟩
  · intro fs dir h
    simp [GitWt.IsBareRepo, h]
  · intro fs dir h
    rcases hb : fs (".bare" :: dir) with _ | b
    · simp [GitWt.IsBareRepo, hb]
    · cases b
      · simp [GitWt.IsBareRepo, hb]
      · simp [GitWt.IsBareRepo, hb, h]
  · intro fs fs' dir h1 h2
    unfold GitWt.IsBareRepo
    rw [h1, h2]

/-- Witness for C3: the stat-failure clause applied to the everywhere-failing
stat oracle at the filesystem root. -/
theorem C3_project_root_discovery_witness :
    GitWt.IsBareRepo (fun _ => none) [] = false :=
  C3_project_root_discovery.2.2.1 (fun _ => none) [] rfl

/-- C5 divergence record: the code rejects `a.lockb` — a name that does not
end with `.lock` and satisfies none of the claimed failure conditions —
because the `.lock` check uses substring containment rather than the
suffix test its own comment describes; the claimed positive examples
`feature/auth` and `issue-123` do pass. -/
theorem C5_validate_lock_contains_divergence :
    (GitWt.ValidateBranchName "a.lockb").isSome = true ∧
    GitWt.strHasSuffix "a.lockb" ".lock" = false ∧
    GitWt.ValidateBranchName "feature/auth" = none ∧
    GitWt.ValidateBranchName "issue-123" = none := by
  refine ⟨by decide, by decide, by decide, by decide⟩

/-- C8: the worktree-status query returns one of exactly three strings —
`unknown` when the status invocation itself failed, `clean` when the
trimmed status output is empty, and `<n> modified` with `n` the number of
entry lines otherwise — and its Go error return is `nil` on every path, so
a status failure degrades to the `unknown` sentinel instead of aborting the
caller. -/
theorem C8_worktree_status_trichotomy (res : Except String String) :
    (GitWt.GetWorktreeStatus res).2 = none ∧
    (∀ e, res = Except.error e → (GitWt.GetWorktreeStatus res).1 = "unknown") ∧
    (∀ out, res = Except.ok out → GitWt.goTrim out = "" →
      (GitWt.GetWorktreeStatus res).1 = "clean") ∧
    (∀ out, res = Except.ok out → GitWt.goTrim out ≠ "" →
      (GitWt.GetWorktreeStatus res).1 =
        toString (GitWt.goSplitLines (GitWt.goTrim out)).length ++ " modified" ∧
      0 < (GitWt.goSplitLines (GitWt.goTrim out)).length) := by
  refine ⟨?_, ?_, ?_, ?_⟩
  · cases res with
    | error e => rfl
    | ok out =>
      simp only [GitWt.GetWorktreeStatus]
      split <;> rfl
  · rintro e rfl
    rfl
  · rintro out rfl htrim
    simp only [GitWt.GetWorktreeStatus, htrim]
    rw [if_pos]
    right
    right
    exact ⟨rfl, rfl⟩
  · rintro out rfl hne
    have hlen : 0 < (GitWt.goSplitLines (GitWt.goTrim out)).length := by
      rw [List.length_pos]
      simp only [GitWt.goSplitLines, ne_eq, List.map_eq_nil_iff]
      exact GitWt.splitNL_ne_nil _
    simp only [GitWt.GetWorktreeStatus]
    rw [if_neg]
    · exact ⟨rfl, hlen⟩
    · rintro (h1 | h2 | h3)
      · exact hne (by rw [h1]; rfl)
      · omega
      · obtain ⟨hl1, hd⟩ := h3
        obtain ⟨a, ha⟩ := List.length_eq_one.mp hl1
        rw [ha] at hd
        simp only [List.getD, List.getElem?_cons_zero, Option.getD_some] at hd
        subst hd
        apply hne
        rcases hs : GitWt.splitNL (GitWt.goTrim out).data with _ | ⟨x, xs⟩
        · exact absurd hs (GitWt.splitNL_ne_nil _)
        · rw [GitWt.goSplitLines, hs, List.map_cons] at ha
          simp only [List.cons.injEq, List.map_eq_nil_iff] at ha
          obtain ⟨hx, hxs⟩ := ha
          have hx' : x = [] := (GitWt.mk_eq_empty_iff x).mp hx
          have hdata : (GitWt.goTrim out).data = [] :=
            (GitWt.splitNL_eq_single_iff ((GitWt.goTrim out).data)).mp
              (by rw [hs, hx', hxs])
          exact (GitWt.mk_eq_empty_iff _).mpr hdata

/-- Witness for C8 on a concrete failing query and a two-entry output. -/
theorem C8_worktree_status_trichotomy_witness :
    (GitWt.GetWorktreeStatus (Except.error "boom")).1 = "unknown" ∧
    (GitWt.GetWorktreeStatus
        (Except.ok " M a.txt\n?? b.txt")).1 =
      toString (GitWt.goSplitLines (GitWt.goTrim " M a.txt\n?? b.txt")).length ++
        " modified" :=
  ⟨(C8_worktree_status_trichotomy (Except.error "boom")).2.1 "boom" rfl,
   ((C8_worktree_status_trichotomy (Except.ok " M a.txt\n?? b.txt")).2.2.2
      " M a.txt\n?? b.txt" rfl (by decide)).1⟩


/-- The loop body changes the accumulated path exactly as `pathStep` says. -/
theorem GitWt.wtStep_path (w : GitWt.Worktree) (l : String) :
    (GitWt.wtStep w (GitWt.goTrim l)).path = GitWt.pathStep w.path l := by
  simp only [GitWt.wtStep, GitWt.pathStep]
  by_cases h1 : GitWt.strHasPrefix (GitWt.goTrim l) "worktree "
  · simp [h1]
  · by_cases h2 : GitWt.strHasPrefix (GitWt.goTrim l) "HEAD " <;>
      by_cases h3 : GitWt.strHasPrefix (GitWt.goTrim l) "branch " <;>
        simp [h1, h2, h3]

/-- Block splitting at a blank line: a fresh empty block is opened. -/
theorem GitWt.splitBlocks_cons_blank (l : String) (ls : List String)
    (h : GitWt.goTrim l = "") :
    GitWt.splitBlocks (l :: ls) =
      ([], (GitWt.splitBlocks ls).1 :: (GitWt.splitBlocks ls).2) := by
  rcases hsb : GitWt.splitBlocks ls with ⟨b, bs⟩
  simp [GitWt.splitBlocks, hsb, h]

/-- Block splitting at a non-blank line: the line joins the first block. -/
theorem GitWt.splitBlocks_cons_line (l : String) (ls : List String)
    (h : ¬ GitWt.goTrim l = "") :
    GitWt.splitBlocks (l :: ls) =
      (l :: (GitWt.splitBlocks ls).1, (GitWt.splitBlocks ls).2) := by
  rcases hsb : GitWt.splitBlocks ls with ⟨b, bs⟩
  simp [GitWt.splitBlocks, hsb, h]

/-- A first block folded from the empty path contributes exactly its
`blockPath`. -/
theorem GitWt.emitIf_filterMap (b : List String) (bs : List (List String)) :
    GitWt.emitIf (GitWt.foldPath "" b) ++ bs.filterMap GitWt.blockPath =
      (b :: bs).filterMap GitWt.blockPath := by
  by_cases h : GitWt.foldPath "" b = "" <;>
    simp [GitWt.emitIf, GitWt.blockPath, List.filterMap_cons, h]

/-- The parser loop's record paths are the per-block paths of the
blank-line-delimited blocks, in order: the first block continues the carried
path, every later block starts fresh. -/
theorem GitWt.parseLoop_paths (ls : List String) :
    ∀ w : GitWt.Worktree,
      (GitWt.parseLoop w ls).map (fun r => r.path) =
        GitWt.specPaths w.path (GitWt.splitBlocks ls).1 (GitWt.splitBlocks ls).2 := by
  induction ls with
  | nil =>
    intro w
    by_cases h : w.path = "" <;>
      simp [GitWt.parseLoop, GitWt.splitBlocks, GitWt.specPaths, GitWt.emitIf,
        GitWt.foldPath, h]
  | cons l ls ih =>
    intro w
    by_cases ht : GitWt.goTrim l = ""
    · rw [GitWt.splitBlocks_cons_blank l ls ht]
      by_cases hp : w.path = ""
      · have lhs : GitWt.parseLoop w (l :: ls) = GitWt.parseLoop w ls := by
          simp [GitWt.parseLoop, ht, hp]
        rw [lhs, ih w, hp]
        simp only [GitWt.specPaths]
        rw [GitWt.emitIf_filterMap]
        simp [GitWt.emitIf, GitWt.foldPath]
      · have lhs : GitWt.parseLoop w (l :: ls) =
            w :: GitWt.parseLoop GitWt.emptyWorktree ls := by
          simp [GitWt.parseLoop, ht, hp]
        rw [lhs, List.map_cons, ih GitWt.emptyWorktree]
        have hempty : GitWt.emptyWorktree.path = "" := rfl
        rw [hempty]
        simp only [GitWt.specPaths]
        rw [GitWt.emitIf_filterMap]
        simp [GitWt.emitIf, GitWt.foldPath, hp]
    · rw [GitWt.splitBlocks_cons_line l ls ht]
      have lhs : GitWt.parseLoop w (l :: ls) =
          GitWt.parseLoop (GitWt.wtStep w (GitWt.goTrim l)) ls := by
        simp [GitWt.parseLoop, ht]
      rw [lhs, ih (GitWt.wtStep w (GitWt.goTrim l)), GitWt.wtStep_path]
      simp only [GitWt.specPaths, GitWt.foldPath, List.foldl_cons]

/-- C4: parsing a porcelain worktree listing yields one record per
blank-line-delimited block in input order, discarding blocks that lack a
path line (stated as: the record paths are exactly the per-block paths);
a two-record listing separated by a blank line yields exactly two entries,
their branch fields carry the short name with the `refs/heads/` prefix
stripped and interior slashes preserved, the commit field is empty (absent)
for a record whose block has no HEAD line, and a block without a path line
yields no record. -/
theorem C4_parse_worktree_list :
    (∀ output : String,
      (GitWt.parseWorktreeList output).map (fun r => r.path) =
        (GitWt.blocksOf output).filterMap GitWt.blockPath) ∧
    GitWt.parseWorktreeList
        "worktree /w/a\nHEAD abc123\nbranch refs/heads/feature/auth\n\nworktree /w/b\nbranch refs/heads/fix/security/issue-42" =
      [{ path := "/w/a", branch := "feature/auth", commit := "abc123" },
       { path := "/w/b", branch := "fix/security/issue-42", commit := "" }] ∧
    GitWt.parseWorktreeList "branch refs/heads/orphan" = [] := by
  refine ⟨?_, by decide, by decide⟩
  intro output
  rw [GitWt.parseWorktreeList,
    GitWt.parseLoop_paths (GitWt.goSplitLines output) GitWt.emptyWorktree]
  have hempty : GitWt.emptyWorktree.path = "" := rfl
  rw [hempty, GitWt.blocksOf]
  simp only [GitWt.specPaths]
  rw [GitWt.emitIf_filterMap]

/-- A pattern that occurs nowhere in a list is never replaced. -/
theorem GitWt.replaceList_of_not_contains (pat rep : List Char) :
    ∀ s : List Char, GitWt.containsSeq s pat = false →
      GitWt.replaceList pat rep s = s := by
  intro s
  induction s with
  | nil => intro _; rfl
  | cons a t ih =>
    intro h
    simp only [GitWt.containsSeq, Bool.or_eq_false_iff] at h
    simp only [GitWt.replaceList, GitWt.replaceGo] at ih ⊢
    rw [if_neg (by simp [h.1]), ih h.2]

/-- `strReplaceAll` is the identity when the pattern does not occur. -/
theorem GitWt.strReplaceAll_of_not_contains (s pat rep : String)
    (h : GitWt.strContains s pat = false) :
    GitWt.strReplaceAll s pat rep = s := by
  simp only [GitWt.strReplaceAll]
  rw [GitWt.replaceList_of_not_contains pat.data rep.data s.data h]

/-- Reading an escaped quote body inside single quotes recovers the original
characters and continues with the remainder. -/
theorem GitWt.parseShellWord_escape (s : List Char) :
    ∀ r : List Char,
      GitWt.parseShellWord true false (GitWt.escapeQuotes s ++ ('\'' :: r)) =
        (GitWt.parseShellWord false false r).map (fun w => s ++ w) := by
  induction s with
  | nil =>
    intro r
    simp [GitWt.escapeQuotes, GitWt.parseShellWord]
  | cons c t ih =>
    intro r
    by_cases hc : c = '\''
    · subst hc
      simp [GitWt.escapeQuotes, GitWt.parseShellWord, ih, Option.map_map,
        Function.comp_def]
    · simp [GitWt.escapeQuotes, hc, GitWt.parseShellWord, ih, Option.map_map,
        Function.comp_def]

/-- Reading back a shell-quoted value yields exactly that value. -/
theorem GitWt.shellQuote_roundtrip (v : List Char) :
    GitWt.parseShellWord false false (GitWt.shellQuote ⟨v⟩).data = some v := by
  have h : (GitWt.shellQuote ⟨v⟩).data =
      '\'' :: (GitWt.escapeQuotes v ++ ('\'' :: [])) := rfl
  rw [h]
  have hopen : GitWt.parseShellWord false false
      ('\'' :: (GitWt.escapeQuotes v ++ ('\'' :: []))) =
      GitWt.parseShellWord true false (GitWt.escapeQuotes v ++ ('\'' :: [])) := by
    simp [GitWt.parseShellWord]
  rw [hopen, GitWt.parseShellWord_escape v []]
  simp [GitWt.parseShellWord]

/-- C7: hook template expansion replaces each of the four placeholders with
the shell-quoted context value and leaves placeholder-free text unchanged:
expanding `echo` followed by the path placeholder with path `/a/b` yields
`echo '/a/b'`; the quoting wraps in single quotes, escaping an embedded
quote as the close-escape-reopen sequence, and a POSIX shell reader gives
back exactly the original value from the quoted form, so re-injection
cannot smuggle shell syntax. -/
theorem C7_expand_templates_shell_quotes :
    (∀ v : List Char,
      GitWt.parseShellWord false false (GitWt.shellQuote ⟨v⟩).data = some v) ∧
    GitWt.expandTemplates "echo \x7b\x7b.Path\x7d\x7d"
        { path := "/a/b", branch := "", projectRoot := "", defaultBranch := "" } =
      ⟨['e', 'c', 'h', 'o', ' ', '\'', '/', 'a', '/', 'b', '\'']⟩ ∧
    (GitWt.shellQuote ⟨['a', '\'', 'b']⟩).data =
      ['\'', 'a', '\'', '\\', '\'', '\'', 'b', '\''] ∧
    (∀ (s : String) (ctx : GitWt.HookContext),
      (∀ pv ∈ GitWt.placeholderPairs ctx, GitWt.strContains s pv.1 = false) →
      GitWt.expandTemplates s ctx = s) := by
  refine ⟨GitWt.shellQuote_roundtrip, by decide, by decide, ?_⟩
  intro s ctx h
  have h1 := h ("\x7b\x7b.Path\x7d\x7d", ctx.path)
    (by simp [GitWt.placeholderPairs])
  have h2 := h ("\x7b\x7b.Branch\x7d\x7d", ctx.branch)
    (by simp [GitWt.placeholderPairs])
  have h3 := h ("\x7b\x7b.ProjectRoot\x7d\x7d", ctx.projectRoot)
    (by simp [GitWt.placeholderPairs])
  have h4 := h ("\x7b\x7b.DefaultBranch\x7d\x7d", ctx.defaultBranch)
    (by simp [GitWt.placeholderPairs])
  simp only [GitWt.expandTemplates, GitWt.placeholderPairs, List.foldl_cons,
    List.foldl_nil]
  rw [GitWt.strReplaceAll_of_not_contains _ _ _ h1,
    GitWt.strReplaceAll_of_not_contains _ _ _ h2,
    GitWt.strReplaceAll_of_not_contains _ _ _ h3,
    GitWt.strReplaceAll_of_not_contains _ _ _ h4]

/-- Witness for C7: expanding a placeholder-free command is the identity. -/
theorem C7_expand_templates_shell_quotes_witness :
    GitWt.expandTemplates "make build"
      { path := "/p", branch := "b", projectRoot := "/r", defaultBranch := "main" } =
      "make build" :=
  C7_expand_templates_shell_quotes.2.2.2 "make build"
    { path := "/p", branch := "b", projectRoot := "/r", defaultBranch := "main" }
    (by decide)

/-- C6: the hook runner issues every command's shell invocation in list
order regardless of earlier failures (no short-circuit), collects exactly
one warning per failing or timed-out command and none for successes, runs
`true` after `false` with exactly the one warning from `false`, and a
timeout warning always differs from a non-zero-exit warning whose error
text is not the deadline text. -/
theorem C6_hook_runner_sequential_warnings :
    (∀ (cmds : List String) (ctx : GitWt.HookContext)
        (exec : String → GitWt.ExecOutcome),
      (GitWt.RunWithTimeout cmds ctx exec).executed =
        cmds.map (fun c => GitWt.expandTemplates c ctx)) ∧
    (∀ (cmds : List String) (ctx : GitWt.HookContext)
        (exec : String → GitWt.ExecOutcome),
      (GitWt.RunWithTimeout cmds ctx exec).warnings =
        cmds.filterMap (fun c =>
          GitWt.warnOf (GitWt.expandTemplates c ctx)
            (exec (GitWt.expandTemplates c ctx)))) ∧
    (GitWt.RunWithTimeout ["false", "true"]
        { path := "", branch := "", projectRoot := "", defaultBranch := "" }
        (fun c => if c = "false" then GitWt.ExecOutcome.exitErr "exit status 1"
          else GitWt.ExecOutcome.success) =
      { executed := ["false", "true"], warnings := ["false: exit status 1"] }) ∧
    (∀ cmd msg : String, msg ≠ "context deadline exceeded" →
      GitWt.warnOf cmd GitWt.ExecOutcome.timedOut ≠
        GitWt.warnOf cmd (GitWt.ExecOutcome.exitErr msg)) := by
  refine ⟨?_, ?_, by decide, ?_⟩
  · intro cmds ctx exec
    induction cmds with
    | nil => rfl
    | cons cmd rest ih => simp [GitWt.RunWithTimeout, ih]
  · intro cmds ctx exec
    induction cmds with
    | nil => rfl
    | cons cmd rest ih =>
      simp only [GitWt.RunWithTimeout, List.filterMap_cons, ih]
      cases GitWt.warnOf (GitWt.expandTemplates cmd ctx)
          (exec (GitWt.expandTemplates cmd ctx)) <;> simp
  · intro cmd msg hmsg heq
    apply hmsg
    have h2 := congrArg String.data (Option.some.inj heq)
    simp only [String.data_append] at h2
    have h3 : "context deadline exceeded".data = msg.data := by simpa using h2
    exact (String.ext h3).symm

/-- Witness for C6: the timeout warning differs from an exit-status warning
for the same concrete command. -/
theorem C6_hook_runner_sequential_warnings_witness :
    GitWt.warnOf "false" GitWt.ExecOutcome.timedOut ≠
      GitWt.warnOf "false" (GitWt.ExecOutcome.exitErr "exit status 1") :=
  C6_hook_runner_sequential_warnings.2.2.2 "false" "exit status 1" (by decide)
